import Mathlib

/-!
Shallow embedding of the authentication-context builder of the `actual-mcp`
server (`src/auth/auth.ts` together with the configuration module
`src/auth/config.ts`).  TypeScript values of type `unknown` (JSON payloads,
introspection responses) are modelled by the inductive type `Json`;
`string | undefined` configuration settings become `Option String`; thrown
exceptions become `Except` values.  Machinery that performs I/O (HTTP
fetches, sleeping) is modelled by explicit oracles passed as parameters, and
the observable effects (which URLs were fetched, in which order, how many
sleeps happened) are returned as part of the result.
-/

set_option maxRecDepth 8000
set_option synthInstance.maxSize 4000

namespace ActualMcp

/-- JSON-ish runtime values, as seen by the duck-typed TypeScript code.
`null` models both JavaScript `null`; absence of a field is modelled by
`Option.none` at the lookup level. -/
inductive Json where
  | null : Json
  | bool (b : Bool) : Json
  | num (n : Int) : Json
  | str (s : String) : Json
  | arr (xs : List Json) : Json

deriving instance DecidableEq for Except

/-- `resolveValidationMethod`'s result type: the TypeScript union
`'introspection' | 'jwt'`. -/
inductive ResolvedMethod where
  | introspection
  | jwt
deriving DecidableEq, Repr

/-- The TypeScript union `OAuthValidationMethod = 'introspection' | 'jwt' | 'auto'`
from `config.ts`. -/
inductive OAuthValidationMethod where
  | introspection
  | jwt
  | auto
deriving DecidableEq, Repr

/-- Error message thrown by `resolveValidationMethod` when introspection is
forced but client credentials are missing (auth.ts line 228). -/
def introspectionCredsError : String :=
  "MCP_OAUTH_CLIENT_ID and MCP_OAUTH_CLIENT_SECRET are required for introspection validation."

/-- Error message thrown by `resolveValidationMethod` when introspection is
forced but no introspection endpoint is available (auth.ts line 231). -/
def introspectionEndpointError : String :=
  "Introspection endpoint not available. Set MCP_OAUTH_INTROSPECTION_URL or use jwt validation."

/-- Error message thrown by `resolveValidationMethod` when jwt is forced but
no JWKS URI is available (auth.ts line 238). -/
def jwksMissingError : String :=
  "JWKS URI not available. Set MCP_OAUTH_JWKS_URL or ensure issuer metadata includes jwks_uri."

/-- Error thrown in auto mode when credentials are present but no
introspection endpoint is available (auth.ts lines 253-256). -/
def autoCredsNoEndpointError : String :=
  "OAuth auto-detection failed: client credentials provided but no introspection endpoint available. " ++
    "Set MCP_OAUTH_INTROSPECTION_URL or use MCP_OAUTH_VALIDATION_METHOD=jwt with JWKS."

/-- Error thrown in auto mode when neither credentials nor a JWKS URI are
available (auth.ts lines 259-262). -/
def autoNoCapabilityError : String :=
  "OAuth auto-detection failed: no client credentials and no JWKS URI available. " ++
    "Configure either client credentials for introspection or ensure jwks_uri is in issuer metadata."

/-- Embedding of `resolveValidationMethod` (auth.ts lines 220-263).
Thrown `Error`s become `Except.error` carrying the exact message string. -/
def resolveValidationMethod (method : OAuthValidationMethod)
    (hasClientCredentials hasIntrospectionEndpoint hasJwksUri : Bool) :
    Except String ResolvedMethod :=
  if method = .introspection then
    if !hasClientCredentials then
      .error introspectionCredsError
    else if !hasIntrospectionEndpoint then
      .error introspectionEndpointError
    else
      .ok .introspection
  else if method = .jwt then
    if !hasJwksUri then
      .error jwksMissingError
    else
      .ok .jwt
  else
    if hasClientCredentials && hasIntrospectionEndpoint then
      .ok .introspection
    else if hasJwksUri then
      .ok .jwt
    else if hasClientCredentials then
      .error autoCredsNoEndpointError
    else
      .error autoNoCapabilityError

/-- C1: `resolveValidationMethod` implements the spec's decision table.
Forced introspection succeeds exactly when both credentials and an
introspection endpoint are present, and the two failure messages identify
which prerequisite is missing (they name the missing variables and differ);
forced jwt succeeds exactly when a JWKS URI is present, failing by naming
`MCP_OAUTH_JWKS_URL`; auto prefers introspection when both credentials and
endpoint exist, else jwt when a JWKS URI exists, and otherwise fails with
one of two distinct messages distinguishing the credentials-but-no-endpoint
case from the no-capability case. -/
theorem resolveValidationMethod_decision_table
    (creds intro jwks : Bool) :
    (resolveValidationMethod .introspection creds intro jwks = .ok .introspection ↔
      creds = true ∧ intro = true) ∧
    (creds = false →
      resolveValidationMethod .introspection creds intro jwks = .error introspectionCredsError) ∧
    (creds = true → intro = false →
      resolveValidationMethod .introspection creds intro jwks = .error introspectionEndpointError) ∧
    introspectionCredsError ≠ introspectionEndpointError ∧
    (resolveValidationMethod .jwt creds intro jwks = .ok .jwt ↔ jwks = true) ∧
    (jwks = false →
      resolveValidationMethod .jwt creds intro jwks = .error jwksMissingError) ∧
    (creds = true → intro = true →
      resolveValidationMethod .auto creds intro jwks = .ok .introspection) ∧
    (¬(creds = true ∧ intro = true) → jwks = true →
      resolveValidationMethod .auto creds intro jwks = .ok .jwt) ∧
    (¬(creds = true ∧ intro = true) → jwks = false → creds = true →
      resolveValidationMethod .auto creds intro jwks = .error autoCredsNoEndpointError) ∧
    (creds = false → jwks = false →
      resolveValidationMethod .auto creds intro jwks = .error autoNoCapabilityError) ∧
    autoCredsNoEndpointError ≠ autoNoCapabilityError := by
  cases creds <;> cases intro <;> cases jwks <;> decide

/-- Closed instance of the C1 decision table: every hypothesis discharged at
concrete Boolean inputs. -/
theorem resolveValidationMethod_decision_table_witness :
    resolveValidationMethod .introspection false true true = .error introspectionCredsError ∧
    resolveValidationMethod .introspection true false true = .error introspectionEndpointError ∧
    resolveValidationMethod .jwt true true false = .error jwksMissingError ∧
    resolveValidationMethod .auto true true true = .ok .introspection ∧
    resolveValidationMethod .auto false false true = .ok .jwt ∧
    resolveValidationMethod .auto true false false = .error autoCredsNoEndpointError ∧
    resolveValidationMethod .auto false true false = .error autoNoCapabilityError :=
  ⟨(resolveValidationMethod_decision_table false true true).2.1 rfl,
   (resolveValidationMethod_decision_table true false true).2.2.1 rfl rfl,
   (resolveValidationMethod_decision_table true true false).2.2.2.2.2.1 rfl,
   (resolveValidationMethod_decision_table true true true).2.2.2.2.2.2.1 rfl rfl,
   (resolveValidationMethod_decision_table false false true).2.2.2.2.2.2.2.1 (by decide) rfl,
   (resolveValidationMethod_decision_table true false false).2.2.2.2.2.2.2.2.1 (by decide) rfl rfl,
   (resolveValidationMethod_decision_table false true false).2.2.2.2.2.2.2.2.2.1 rfl rfl⟩

/-! ## Mode resolution (`resolveAuthMode`, auth.ts lines 62-72, and the
mode dispatch of `buildAuthContext`, lines 485-499) -/

/-- The CLI options record `AuthOptions` (auth.ts lines 41-45).  The
TypeScript fields are optional booleans / numbers, modelled with `Option`;
JavaScript truthiness of `undefined` is falsy, i.e. `Option.getD false`. -/
structure AuthOptions where
  enableOauth : Option Bool := none
  enableBearer : Option Bool := none
  port : Option Nat := none

/-- Embedding of `resolveAuthMode` (auth.ts lines 62-72).  `mcpAuthMode` is
the value of the `MCP_AUTH_MODE` configuration constant, an arbitrary
(already lower-cased) string since config.ts casts it unchecked. -/
def resolveAuthMode (options : AuthOptions) (mcpAuthMode : String) : String :=
  if options.enableOauth.getD false then "oauth"
  else if options.enableBearer.getD false then "bearer"
  else mcpAuthMode

/-- The mode `buildAuthContext`'s switch statement (auth.ts lines 485-499)
actually dispatches on: recognized modes select their branch, anything else
falls to the `default` branch which logs and behaves as mode `none`. -/
def effectiveAuthMode (options : AuthOptions) (mcpAuthMode : String) : String :=
  match resolveAuthMode options mcpAuthMode with
  | "none" => "none"
  | "bearer" => "bearer"
  | "oauth" => "oauth"
  | _ => "none"

/-- C5: the mode resolver returns `oauth` whenever the oauth flag is
requested (regardless of the bearer flag), else `bearer` whenever the bearer
flag is requested, else the fallback mode, with the dispatch defaulting to
`none` when the fallback string is unrecognized; it is a total function
(no failure mode, no I/O). -/
theorem resolveAuthMode_spec (options : AuthOptions) (fallback : String) :
    (options.enableOauth = some true → resolveAuthMode options fallback = "oauth") ∧
    (options.enableOauth ≠ some true → options.enableBearer = some true →
      resolveAuthMode options fallback = "bearer") ∧
    (options.enableOauth ≠ some true → options.enableBearer ≠ some true →
      resolveAuthMode options fallback = fallback) ∧
    ((fallback = "none" ∨ fallback = "bearer" ∨ fallback = "oauth") →
      options.enableOauth ≠ some true → options.enableBearer ≠ some true →
      effectiveAuthMode options fallback = fallback) ∧
    (fallback ≠ "none" → fallback ≠ "bearer" → fallback ≠ "oauth" →
      options.enableOauth ≠ some true → options.enableBearer ≠ some true →
      effectiveAuthMode options fallback = "none") ∧
    (effectiveAuthMode options fallback = "none" ∨
      effectiveAuthMode options fallback = "bearer" ∨
      effectiveAuthMode options fallback = "oauth") := by
  have getDf : ∀ o : Option Bool, o ≠ some true → o.getD false = false := by
    intro o h
    cases o with
    | none => rfl
    | some b =>
      cases b with
      | false => rfl
      | true => exact absurd rfl h
  refine ⟨?_, ?_, ?_, ?_, ?_, ?_⟩
  · intro h; simp [resolveAuthMode, h]
  · intro h1 h2; simp [resolveAuthMode, getDf _ h1, h2]
  · intro h1 h2; simp [resolveAuthMode, getDf _ h1, getDf _ h2]
  · rintro (rfl | rfl | rfl) h1 h2 <;>
      simp [effectiveAuthMode, resolveAuthMode, getDf _ h1, getDf _ h2]
  · intro hn hb ho h1 h2
    simp only [effectiveAuthMode, resolveAuthMode, getDf _ h1, getDf _ h2,
      Bool.false_eq_true, if_false]
  · simp only [effectiveAuthMode]
    split <;> simp

/-- Closed instance of C5: oauth wins over bearer when both are requested;
an unrecognized fallback dispatches to `none`. -/
theorem resolveAuthMode_spec_witness :
    resolveAuthMode ⟨some true, some true, none⟩ "none" = "oauth" ∧
    resolveAuthMode ⟨some false, some true, none⟩ "none" = "bearer" ∧
    resolveAuthMode ⟨none, none, none⟩ "bearer" = "bearer" ∧
    effectiveAuthMode ⟨none, none, none⟩ "garbage" = "none" :=
  ⟨(resolveAuthMode_spec ⟨some true, some true, none⟩ "none").1 rfl,
   (resolveAuthMode_spec ⟨some false, some true, none⟩ "none").2.1 (by decide) rfl,
   (resolveAuthMode_spec ⟨none, none, none⟩ "bearer").2.2.1 (by decide) (by decide),
   (resolveAuthMode_spec ⟨none, none, none⟩ "garbage").2.2.2.2.1
     (by decide) (by decide) (by decide) (by decide) (by decide)⟩

/-! ## Static bearer mode (`buildBearerAuthContext`, auth.ts lines 185-209) -/

/-- The `TokenVerifierResult` interface (auth.ts lines 47-52). -/
structure TokenVerifierResult where
  token : String
  clientId : String
  scopes : List String
  expiresAt : Option Nat
deriving DecidableEq, Repr

/-- Per-request verification failures: the SDK's `InvalidTokenError`,
carrying its message. -/
inductive VerifyError where
  | invalidToken (msg : String)
deriving DecidableEq, Repr

/-- Construction error thrown by `buildBearerAuthContext` when no static
token is configured (auth.ts line 188); it names the missing variable. -/
def bearerTokenRequiredError : String :=
  "MCP_BEARER_TOKEN (or BEARER_TOKEN) is required when auth mode is bearer."

/-- The verifier closure installed by `buildBearerAuthContext` (auth.ts
lines 193-203).  `nowSec` models `Math.floor(Date.now() / 1000)`. -/
def bearerVerifyAccessToken (configuredToken accessToken : String) (nowSec : Nat) :
    Except VerifyError TokenVerifierResult :=
  if accessToken ≠ configuredToken then
    .error (.invalidToken "Invalid token")
  else
    .ok { token := accessToken
          clientId := "local-user"
          scopes := ["mcp:tools"]
          expiresAt := some (nowSec + 24 * 60 * 60) }

/-- The observable outcome of `buildBearerAuthContext` (auth.ts lines
185-209): either the construction error, or a context in bearer mode whose
verifier compares against the configured token (captured here as the token
the verifier closure closed over). -/
structure BearerAuthContext where
  mode : String
  configuredToken : String
deriving DecidableEq, Repr

/-- Embedding of `buildBearerAuthContext` (auth.ts lines 185-209). -/
def buildBearerAuthContext (mcpBearerToken : Option String) :
    Except String BearerAuthContext :=
  match mcpBearerToken with
  | none => .error bearerTokenRequiredError
  | some t =>
    if t = "" then .error bearerTokenRequiredError
    else .ok { mode := "bearer", configuredToken := t }

/-- C3: in bearer mode, a missing or empty configured token fails
construction with the message naming `MCP_BEARER_TOKEN`; with a token
configured, verification of a presented string succeeds if and only if it
equals the configured token exactly, returning clientId `local-user`,
scopes `[mcp:tools]` and expiry now plus 24 hours, and any other presented
string fails with `InvalidTokenError`. -/
theorem buildBearerAuthContext_spec (t presented : String) (now : Nat) :
    buildBearerAuthContext none = .error bearerTokenRequiredError ∧
    buildBearerAuthContext (some "") = .error bearerTokenRequiredError ∧
    (t ≠ "" → buildBearerAuthContext (some t) = .ok ⟨"bearer", t⟩) ∧
    ((∃ r, bearerVerifyAccessToken t presented now = .ok r) ↔ presented = t) ∧
    (presented = t →
      bearerVerifyAccessToken t presented now =
        .ok { token := presented
              clientId := "local-user"
              scopes := ["mcp:tools"]
              expiresAt := some (now + 24 * 60 * 60) }) ∧
    (presented ≠ t →
      bearerVerifyAccessToken t presented now = .error (.invalidToken "Invalid token")) := by
  refine ⟨rfl, rfl, ?_, ?_, ?_, ?_⟩
  · intro h; simp [buildBearerAuthContext, h]
  · constructor
    · rintro ⟨r, hr⟩
      by_contra hne
      simp [bearerVerifyAccessToken, hne] at hr
    · intro h
      exact ⟨{ token := presented, clientId := "local-user", scopes := ["mcp:tools"],
               expiresAt := some (now + 24 * 60 * 60) },
             by simp [bearerVerifyAccessToken, h]⟩
  · rintro rfl; simp [bearerVerifyAccessToken]
  · intro h; simp [bearerVerifyAccessToken, h]

/-- Closed instance of C3, the spec's end-to-end scenario B: secret
`abc123`, verifying `abc123` succeeds with the fixed identity, verifying
`wrong` raises `InvalidTokenError`. -/
theorem buildBearerAuthContext_spec_witness :
    buildBearerAuthContext (some "abc123") = .ok ⟨"bearer", "abc123"⟩ ∧
    bearerVerifyAccessToken "abc123" "abc123" 1000 =
      .ok { token := "abc123", clientId := "local-user",
            scopes := ["mcp:tools"], expiresAt := some (1000 + 24 * 60 * 60) } ∧
    bearerVerifyAccessToken "abc123" "wrong" 1000 =
      .error (.invalidToken "Invalid token") :=
  ⟨(buildBearerAuthContext_spec "abc123" "abc123" 1000).2.2.1 (by decide),
   (buildBearerAuthContext_spec "abc123" "abc123" 1000).2.2.2.2.1 rfl,
   (buildBearerAuthContext_spec "abc123" "wrong" 1000).2.2.2.2.2 (by decide)⟩

/-! ## Audience matching (`audienceMatches`, auth.ts lines 130-144) -/

mutual

/-- The recursion of `audienceMatches` (auth.ts lines 130-144) for a fixed
expected value that is defined and non-empty (in that case the re-check of
`expected` at each recursive call changes nothing, see
`audienceMatches_arr`): the `typeof`-dispatch — strings compare for
equality, arrays recurse element-wise via `Array.prototype.some`
(`audGoList`), everything else is `false`. -/
def audGo : Json → String → Bool
  | .null, _ => false
  | .bool _, _ => false
  | .num _, _ => false
  | .str s, e => s = e
  | .arr xs, e => audGoList xs e

/-- `Array.prototype.some` of the `audienceMatches` recursion. -/
def audGoList : List Json → String → Bool
  | [], _ => false
  | x :: xs, e => audGo x e || audGoList xs e

end

/-- Embedding of `audienceMatches` (auth.ts lines 130-144): `aud` is the
untyped (`unknown`) audience value, `expected` the optional configured
expected audience. -/
def audienceMatches (aud : Json) (expected : Option String) : Bool :=
  match expected with
  | none => true
  | some e => if e = "" then true else audGo aud e

/-- `audGoList` is `List.any` of the recursion, so for a defined non-empty
expected audience the array clause of `audienceMatches` is exactly the
source's `aud.some((item) => audienceMatches(item, expected))`. -/
theorem audienceMatches_arr (xs : List Json) (e : String) (he : e ≠ "") :
    audienceMatches (.arr xs) (some e) =
      xs.any (fun item => audienceMatches item (some e)) := by
  have hlist : ∀ ys : List Json, audGoList ys e = ys.any (fun item => audGo item e) := by
    intro ys
    induction ys with
    | nil => rfl
    | cons y ys ih => simp [audGoList, ih]
  simp [audienceMatches, if_neg he, audGo, hlist]

/-- The spec-side notion of the expected audience value being "present
anywhere" in the audience: the string occurs either as the audience itself
or as an element at any nesting depth of an array-valued audience. -/
inductive AudOccurs (e : String) : Json → Prop where
  | here : AudOccurs e (.str e)
  | inArr {xs : List Json} {j : Json} : j ∈ xs → AudOccurs e j → AudOccurs e (.arr xs)

theorem audGo_iff (e : String) (aud : Json) :
    audGo aud e = true ↔ AudOccurs e aud := by
  match aud with
  | .null => exact ⟨by simp [audGo], by intro h; cases h⟩
  | .bool b => exact ⟨by simp [audGo], by intro h; cases h⟩
  | .num n => exact ⟨by simp [audGo], by intro h; cases h⟩
  | .str s =>
    simp only [audGo, decide_eq_true_eq]
    constructor
    · rintro rfl; exact .here
    · intro h; cases h; rfl
  | .arr xs =>
    have hlist : ∀ ys : List Json, audGoList ys e = ys.any (fun item => audGo item e) := by
      intro ys
      induction ys with
      | nil => rfl
      | cons y ys ih => simp [audGoList, ih]
    simp only [audGo, hlist, List.any_eq_true]
    constructor
    · rintro ⟨j, hj, hgo⟩
      exact .inArr hj ((audGo_iff e j).mp hgo)
    · intro h
      have inv : ∃ j ∈ xs, AudOccurs e j := by
        cases h with
        | inArr hj hocc => exact ⟨_, hj, hocc⟩
      obtain ⟨j, hj, hocc⟩ := inv
      exact ⟨j, hj, (audGo_iff e j).mpr hocc⟩
termination_by sizeOf aud
decreasing_by
  all_goals
    have := List.sizeOf_lt_of_mem hj
    simp only [Json.arr.sizeOf_spec]
    omega

/-- C4: `audienceMatches` returns true when the expected audience is
undefined or empty; otherwise it returns true exactly when the expected
value occurs in the audience — as the string itself, or present anywhere
(at any nesting depth) in an array-valued audience — and false in every
other case. -/
theorem audienceMatches_spec (aud : Json) (expected : Option String) :
    audienceMatches aud expected = true ↔
      expected = none ∨ expected = some "" ∨
        ∃ e, expected = some e ∧ AudOccurs e aud := by
  match expected with
  | none => simp [audienceMatches]
  | some e =>
    by_cases he : e = ""
    · subst he; simp [audienceMatches]
    · simp only [audienceMatches, if_neg he, audGo_iff]
      constructor
      · intro h; exact .inr (.inr ⟨e, rfl, h⟩)
      · rintro (h | h | ⟨f, hf, hocc⟩)
        · exact absurd h (by simp)
        · exact absurd (Option.some.inj h) he
        · cases Option.some.inj hf; exact hocc

/-! ## Claim extraction from untyped payloads (`extractClientId`,
auth.ts lines 324-333, and `extractScopes`, lines 338-350) together with
the introspection verifier's scope handling (line 398). -/

/-- JavaScript property access on an untyped payload: `none` models
`undefined` (absent property). -/
def jsGet (payload : List (String × Json)) (key : String) : Option Json :=
  (payload.find? (fun p => p.1 = key)).map (fun p => p.2)

/-- The nullish-coalescing operator `a ?? b`: takes `b` exactly when `a` is
`undefined` or `null`. -/
def jsCoalesce (a b : Option Json) : Option Json :=
  match a with
  | none => b
  | some .null => b
  | some v => some v

/-- `undefined` or `null`, the values `??` skips over. -/
def isNullish (o : Option Json) : Prop :=
  o = none ∨ o = some .null

/-- The coalescing chain
`payload.client_id ?? payload.azp ?? payload.cid ?? payload.sub`
(auth.ts lines 326-330). -/
def clientIdClaim (payload : List (String × Json)) : Option Json :=
  jsCoalesce (jsGet payload "client_id")
    (jsCoalesce (jsGet payload "azp")
      (jsCoalesce (jsGet payload "cid") (jsGet payload "sub")))

/-- Embedding of `extractClientId` (auth.ts lines 324-333):
`typeof clientId === 'string' ? clientId : 'unknown-client'`. -/
def extractClientId (payload : List (String × Json)) : String :=
  match clientIdClaim payload with
  | some (.str s) => s
  | _ => "unknown-client"

/-- JavaScript `String.prototype.split` with a single-character separator,
recursing over the character list; the current segment accumulates in
`cur`.  `"".split(sep)` is `[""]`, and adjacent separators produce empty
segments, exactly as in JavaScript. -/
def jsSplitGo (sep : Char) : List Char → String → List String
  | [], cur => [cur]
  | c :: cs, cur => if c = sep then cur :: jsSplitGo sep cs "" else jsSplitGo sep cs (cur.push c)

/-- `s.split(sep)` for a one-character separator. -/
def jsSplit (s : String) (sep : Char) : List String :=
  jsSplitGo sep s.data ""

/-- The coalescing chain `payload.scope ?? payload.scp` (auth.ts line 339). -/
def scopeClaim (payload : List (String × Json)) : Option Json :=
  jsCoalesce (jsGet payload "scope") (jsGet payload "scp")

/-- Embedding of `extractScopes` (auth.ts lines 338-350): a string scope
claim is split on spaces and filtered through `Boolean` (dropping empty
fragments); an array scope claim keeps exactly its string entries;
anything else gives the empty list. -/
def extractScopes (payload : List (String × Json)) : List String :=
  match scopeClaim payload with
  | some (.str s) => (jsSplit s ' ').filter (fun t => t != "")
  | some (.arr xs) => xs.filterMap (fun j => match j with | .str t => some t | _ => none)
  | _ => []

/-- The introspection verifier's scope extraction (auth.ts line 398):
`typeof data.scope === 'string' ? data.scope.split(' ') : []` — a split
with no `Boolean` filter. -/
def introspectionScopes (data : List (String × Json)) : List String :=
  match jsGet data "scope" with
  | some (.str s) => jsSplit s ' '
  | _ => []

/-- `split` never returns the empty list: there is always at least the
segment currently being accumulated. -/
theorem jsSplitGo_ne_nil (sep : Char) (cs : List Char) (cur : String) :
    jsSplitGo sep cs cur ≠ [] := by
  induction cs generalizing cur with
  | nil => simp [jsSplitGo]
  | cons c cs ih =>
    by_cases hc : c = sep
    · simp [jsSplitGo, hc]
    · simp only [jsSplitGo, if_neg hc]
      exact ih _

/-- C8 counterexample: with `client_id` present but holding the number 42
and `azp` holding the string `abc`, the code returns the sentinel
`unknown-client`, not `abc` as the claim's fall-through property predicts:
a present-but-unusable earlier claim does prevent a later string claim
from being returned. -/
theorem extractClientId_counterexample :
    jsGet [("client_id", Json.num 42), ("azp", Json.str "abc")] "client_id"
        = some (Json.num 42) ∧
    jsGet [("client_id", Json.num 42), ("azp", Json.str "abc")] "azp"
        = some (Json.str "abc") ∧
    extractClientId [("client_id", Json.num 42), ("azp", Json.str "abc")]
        = "unknown-client" ∧
    "unknown-client" ≠ "abc" :=
  ⟨rfl, rfl, rfl, by decide⟩

theorem jsCoalesce_of_nullish {a : Option Json} (b : Option Json)
    (h : isNullish a) : jsCoalesce a b = b := by
  rcases h with rfl | rfl <;> rfl

theorem jsCoalesce_of_str {a : Option Json} (b : Option Json) {s : String}
    (h : a = some (.str s)) : jsCoalesce a b = some (.str s) := by
  subst h; rfl

/-- C8 (amended): `extractClientId` evaluates the nullish-coalescing chain
`client_id ?? azp ?? cid ?? sub`; the first claim that is neither absent
nor null wins, and the result is that claim's value when it is a string
and the sentinel `unknown-client` otherwise.  Present-but-null claims fall
through to later claims; a present non-null non-string claim stops the
chain and yields the sentinel even when a later claim holds a string. -/
theorem extractClientId_order (payload : List (String × Json)) (s : String) :
    (jsGet payload "client_id" = some (.str s) → extractClientId payload = s) ∧
    (isNullish (jsGet payload "client_id") →
      jsGet payload "azp" = some (.str s) → extractClientId payload = s) ∧
    (isNullish (jsGet payload "client_id") → isNullish (jsGet payload "azp") →
      jsGet payload "cid" = some (.str s) → extractClientId payload = s) ∧
    (isNullish (jsGet payload "client_id") → isNullish (jsGet payload "azp") →
      isNullish (jsGet payload "cid") →
      jsGet payload "sub" = some (.str s) → extractClientId payload = s) ∧
    (isNullish (jsGet payload "client_id") → isNullish (jsGet payload "azp") →
      isNullish (jsGet payload "cid") → isNullish (jsGet payload "sub") →
      extractClientId payload = "unknown-client") ∧
    (∀ v, clientIdClaim payload = some v → (∀ t, v ≠ .str t) →
      extractClientId payload = "unknown-client") := by
  refine ⟨?_, ?_, ?_, ?_, ?_, ?_⟩
  · intro h
    simp [extractClientId, clientIdClaim, jsCoalesce_of_str _ h]
  · intro h1 h2
    simp [extractClientId, clientIdClaim, jsCoalesce_of_nullish _ h1,
      jsCoalesce_of_str _ h2]
  · intro h1 h2 h3
    simp [extractClientId, clientIdClaim, jsCoalesce_of_nullish _ h1,
      jsCoalesce_of_nullish _ h2, jsCoalesce_of_str _ h3]
  · intro h1 h2 h3 h4
    simp [extractClientId, clientIdClaim, jsCoalesce_of_nullish _ h1,
      jsCoalesce_of_nullish _ h2, jsCoalesce_of_nullish _ h3, h4]
  · intro h1 h2 h3 h4
    rcases h4 with h4 | h4 <;>
      simp [extractClientId, clientIdClaim, jsCoalesce_of_nullish _ h1,
        jsCoalesce_of_nullish _ h2, jsCoalesce_of_nullish _ h3, h4]
  · intro v hv hns
    cases v with
    | str t => exact absurd rfl (hns t)
    | null => simp [extractClientId, hv]
    | bool b => simp [extractClientId, hv]
    | num n => simp [extractClientId, hv]
    | arr xs => simp [extractClientId, hv]

/-- Closed instance of the amended C8: null claims fall through, the first
non-nullish string claim is returned, and a numeric first claim forces the
sentinel. -/
theorem extractClientId_order_witness :
    extractClientId [("client_id", Json.null), ("azp", Json.str "abc")] = "abc" ∧
    extractClientId [("sub", Json.str "subject")] = "subject" ∧
    extractClientId [("client_id", Json.num 42), ("sub", Json.str "subject")]
      = "unknown-client" :=
  ⟨(extractClientId_order [("client_id", Json.null), ("azp", Json.str "abc")] "abc").2.1
      (Or.inr rfl) rfl,
   (extractClientId_order [("sub", Json.str "subject")] "subject").2.2.2.1
      (Or.inl rfl) (Or.inl rfl) (Or.inl rfl) rfl,
   (extractClientId_order [("client_id", Json.num 42), ("sub", Json.str "subject")] "x").2.2.2.2.2
      (Json.num 42) rfl (by intro t h; cases h)⟩

/-- C10 counterexample: on an array-valued scope claim containing the empty
string, the JWT scope extractor returns a list containing an empty-string
entry, so "the JWT scope extractor never returns empty-string entries" is
false as a universal statement. -/
theorem extractScopes_counterexample :
    extractScopes [("scope", Json.arr [Json.str ""])] = [""] ∧
    "" ∈ extractScopes [("scope", Json.arr [Json.str ""])] :=
  ⟨rfl, show ("" : String) ∈ [""] from List.mem_singleton.mpr rfl⟩

/-- C10 (amended): on string-valued scope claims the two verifiers differ
on empty fragments: the JWT extractor filters them out (so a string scope
claim never contributes empty-string entries and scope `""` yields `[]`),
while the introspection verifier splits without filtering (so scope `""`
yields `[""]`, and a string scope field never yields the empty list — only
an absent or non-string scope field does). -/
theorem extractScopes_empty_scope (payload data : List (String × Json)) (s : String) :
    (scopeClaim payload = some (.str s) → "" ∉ extractScopes payload) ∧
    (scopeClaim payload = some (.str "") → extractScopes payload = []) ∧
    (jsGet data "scope" = some (.str "") → introspectionScopes data = [""]) ∧
    (jsGet data "scope" = some (.str s) →
      introspectionScopes data = jsSplit s ' ' ∧ introspectionScopes data ≠ []) ∧
    ((∀ t, jsGet data "scope" ≠ some (.str t)) → introspectionScopes data = []) := by
  refine ⟨?_, ?_, ?_, ?_, ?_⟩
  · intro h
    simp only [extractScopes, h]
    intro hmem
    have := List.of_mem_filter hmem
    simp at this
  · intro h
    simp [extractScopes, h, jsSplit, jsSplitGo]
  · intro h
    simp [introspectionScopes, h, jsSplit, jsSplitGo]
  · intro h
    refine ⟨by simp [introspectionScopes, h], ?_⟩
    simp only [introspectionScopes, h]
    exact jsSplitGo_ne_nil _ _ _
  · intro h
    rcases hg : jsGet data "scope" with _ | j
    · simp [introspectionScopes, hg]
    · cases j with
      | str t => exact absurd hg (h t)
      | null => simp [introspectionScopes, hg]
      | bool b => simp [introspectionScopes, hg]
      | num n => simp [introspectionScopes, hg]
      | arr xs => simp [introspectionScopes, hg]

/-- Closed instance of the amended C10: scope `"a  b"` gives `[a, b]` for
the JWT extractor but `[a, "", b]`-style unfiltered fragments for the
introspection verifier; scope `""` gives `[]` against `[""]`. -/
theorem extractScopes_empty_scope_witness :
    extractScopes [("scope", Json.str "")] = [] ∧
    introspectionScopes [("scope", Json.str "")] = [""] ∧
    introspectionScopes [("scope", Json.str "a  b")] = ["a", "", "b"] ∧
    introspectionScopes [("scope", Json.num 1)] = [] ∧
    "" ∉ extractScopes [("scope", Json.str "a  b")] :=
  ⟨(extractScopes_empty_scope [("scope", Json.str "")] [] "").2.1 rfl,
   (extractScopes_empty_scope [] [("scope", Json.str "")] "").2.2.1 rfl,
   ((extractScopes_empty_scope [] [("scope", Json.str "a  b")] "a  b").2.2.2.1 rfl).1,
   (extractScopes_empty_scope [] [("scope", Json.num 1)] "").2.2.2.2
      (by intro t h; simp [jsGet] at h),
   (extractScopes_empty_scope [("scope", Json.str "a  b")] [] "a  b").1 rfl⟩

/-! ## URL model

The WHATWG `URL` objects the source manipulates are modelled by their five
components relevant to this code: scheme, authority (`host`, possibly with
a port), path, query (`search`, empty or starting with a question mark) and
fragment (`hash`, empty or starting with a hash mark).  `parseUrl` models
`new URL(string)` for `scheme://authority...`-shaped inputs (the only shape
issuer and endpoint URLs take here); inputs without a scheme separator or
with an empty scheme or authority fail to parse, modelling the constructor
throwing.  Percent-encoding, case normalization and dot-segment removal
are out of scope: paths, queries and fragments are kept verbatim. -/

structure Url where
  scheme : String
  host : String
  path : String
  search : String
  hash : String
deriving DecidableEq, Repr

/-- `URL.href`: the serialization `scheme://host` followed by path, query
and fragment. -/
def Url.href (u : Url) : String :=
  u.scheme ++ "://" ++ u.host ++ u.path ++ u.search ++ u.hash

/-- Scans for the `://` separator, returning the characters before it and
the rest. -/
def splitSchemeAux : List Char → List Char → Option (List Char × List Char)
  | [], _ => none
  | ':' :: '/' :: '/' :: rest, acc => some (acc.reverse, rest)
  | c :: cs, acc => splitSchemeAux cs (c :: acc)

/-- Splits a character list at the first character satisfying `stop`,
keeping the stop character on the right. -/
def spanNot (stop : Char → Bool) (cs : List Char) : List Char × List Char :=
  (cs.takeWhile (fun c => !stop c), cs.dropWhile (fun c => !stop c))

/-- Model of `new URL(s)`: scheme up to `://`, authority up to the first
slash, question mark or hash mark, then path, query and fragment.  An
absent path serializes as `/` as in WHATWG URLs.  Empty scheme or empty
authority fails, modelling the constructor throwing a `TypeError`. -/
def parseUrl (s : String) : Option Url :=
  match splitSchemeAux s.data [] with
  | none => none
  | some (schemeCs, rest) =>
    if schemeCs = [] then none
    else
      let (hostCs, afterHost) := spanNot (fun c => c = '/' || c = '?' || c = '#') rest
      if hostCs = [] then none
      else
        let (pathCs, afterPath) := spanNot (fun c => c = '?' || c = '#') afterHost
        let (searchCs, hashCs) := spanNot (fun c => c = '#') afterPath
        some { scheme := schemeCs.asString
               host := hostCs.asString
               path := if pathCs = [] then "/" else pathCs.asString
               search := searchCs.asString
               hash := hashCs.asString }

/-- `issuer.href.endsWith('/')`. -/
def hrefEndsWithSlash (s : String) : Bool :=
  s.data.getLast? = some '/'

/-- Embedding of `ensureTrailingSlash` (auth.ts lines 74-81): if the href
already ends in a slash the URL is returned as-is; otherwise a copy is
returned whose pathname gains a trailing slash unless it already has
one. -/
def ensureTrailingSlash (issuer : Url) : Url :=
  if hrefEndsWithSlash issuer.href then issuer
  else if hrefEndsWithSlash issuer.path then issuer
  else { issuer with path := issuer.path ++ "/" }

/-- Model of `new URL(u.href ++ suffix)` for a suffix free of `?`, `#` and
scheme separators: reparsing the concatenated string appends the suffix to
the last nonempty component.  (Faithful whenever `u.path` is nonempty,
which `parseUrl` and `ensureTrailingSlash` guarantee;
`appendWellKnown_href` below proves the href-level characterization.) -/
def appendWellKnown (u : Url) (suffix : String) : Url :=
  if u.hash ≠ "" then { u with hash := u.hash ++ suffix }
  else if u.search ≠ "" then { u with search := u.search ++ suffix }
  else { u with path := u.path ++ suffix }

/-- Model of `new URL(path, base)` for an absolute path reference: the
base contributes scheme and authority only. -/
def resolveAbsolutePath (path : String) (base : Url) : Url :=
  { scheme := base.scheme, host := base.host, path := path, search := "", hash := "" }

/-- Embedding of `buildWellKnownCandidates` (auth.ts lines 83-93): the two
well-known suffixes appended to the slash-ensured issuer href, followed by
the same two well-known paths resolved against the issuer's origin root. -/
def buildWellKnownCandidates (issuer : Url) : List Url :=
  let issuerWithSlash := ensureTrailingSlash issuer
  let scopedCandidates :=
    [".well-known/openid-configuration", ".well-known/oauth-authorization-server"].map
      (fun path => appendWellKnown issuerWithSlash path)
  let rootCandidates := [resolveAbsolutePath "/.well-known/openid-configuration" issuer,
                         resolveAbsolutePath "/.well-known/oauth-authorization-server" issuer]
  scopedCandidates ++ rootCandidates

/-- Reparsing `u.href ++ suffix` appends the suffix at the href level:
`appendWellKnown` is exactly string concatenation on serializations. -/
theorem appendWellKnown_href (u : Url) (suffix : String) :
    (appendWellKnown u suffix).href = u.href ++ suffix := by
  unfold appendWellKnown Url.href
  by_cases hh : u.hash = ""
  · by_cases hs : u.search = ""
    · simp [hh, hs, String.append_assoc]
    · simp [hh, hs, String.append_assoc]
  · simp [hh, String.append_assoc]

/-- C7: `buildWellKnownCandidates` produces the fixed candidate set: the
suffixes `.well-known/openid-configuration` and
`.well-known/oauth-authorization-server` appended to the slash-ensured
issuer href (covering issuers given with or without a trailing slash —
when the issuer href already ends in a slash the issuer itself is used),
plus the same two well-known paths resolved against the issuer's origin
root, for a total of at least 4 candidates. -/
theorem buildWellKnownCandidates_spec (issuer : Url) :
    (buildWellKnownCandidates issuer).map Url.href =
      [(ensureTrailingSlash issuer).href ++ ".well-known/openid-configuration",
       (ensureTrailingSlash issuer).href ++ ".well-known/oauth-authorization-server",
       Url.href { scheme := issuer.scheme, host := issuer.host,
                  path := "/.well-known/openid-configuration", search := "", hash := "" },
       Url.href { scheme := issuer.scheme, host := issuer.host,
                  path := "/.well-known/oauth-authorization-server", search := "", hash := "" }] ∧
    (buildWellKnownCandidates issuer).length = 4 ∧
    4 ≤ (buildWellKnownCandidates issuer).length ∧
    (hrefEndsWithSlash issuer.href = true → ensureTrailingSlash issuer = issuer) := by
  refine ⟨?_, rfl, by simp [buildWellKnownCandidates], ?_⟩
  · simp [buildWellKnownCandidates, appendWellKnown_href, resolveAbsolutePath]
  · intro h; simp [ensureTrailingSlash, h]

/-- Closed instance of C7 at a concrete issuer without a trailing slash:
the four candidate hrefs, spelled out. -/
theorem buildWellKnownCandidates_spec_witness :
    (buildWellKnownCandidates
        { scheme := "https", host := "auth.example.com", path := "/realms/r",
          search := "", hash := "" }).map Url.href =
      ["https://auth.example.com/realms/r/.well-known/openid-configuration",
       "https://auth.example.com/realms/r/.well-known/oauth-authorization-server",
       "https://auth.example.com/.well-known/openid-configuration",
       "https://auth.example.com/.well-known/oauth-authorization-server"] ∧
    ensureTrailingSlash
        { scheme := "https", host := "auth.example.com", path := "/",
          search := "", hash := "" } =
      { scheme := "https", host := "auth.example.com", path := "/",
        search := "", hash := "" } := by
  constructor
  · rw [(buildWellKnownCandidates_spec
      { scheme := "https", host := "auth.example.com", path := "/realms/r",
        search := "", hash := "" }).1]
    rfl
  · exact (buildWellKnownCandidates_spec
      { scheme := "https", host := "auth.example.com", path := "/",
        search := "", hash := "" }).2.2.2 (by decide)

/-! ## Issuer rewriting (`rewriteOAuthMetadataIssuer`, auth.ts lines
146-183) -/

/-- The `OAuthMetadata` fields this module reads or rewrites.  TypeScript
values that may be `undefined` (or, being duck-typed reads, non-strings
filtered by `typeof` checks) are `Option String`; `issuer` is a required
string. -/
structure OAuthMetadataR where
  issuer : String
  authorization_endpoint : Option String
  token_endpoint : Option String
  introspection_endpoint : Option String
  userinfo_endpoint : Option String
  revocation_endpoint : Option String
  end_session_endpoint : Option String
  jwks_uri : Option String
deriving DecidableEq, Repr

/-- The seven endpoint fields `rewriteOAuthMetadataIssuer` remaps, in
source order. -/
def metadataEndpointFields (m : OAuthMetadataR) : List (Option String) :=
  [m.authorization_endpoint, m.token_endpoint, m.introspection_endpoint,
   m.userinfo_endpoint, m.revocation_endpoint, m.end_session_endpoint, m.jwks_uri]

/-- The inner `remap` closure (auth.ts lines 153-162): non-strings and the
empty string yield `undefined`; otherwise the value is parsed (`new URL`
throwing becomes `Except.error`) and rebuilt against the public issuer's
scheme and authority with the original path, query and fragment. -/
def remap (issuerUrl : Url) (value : Option String) : Except Unit (Option String) :=
  match value with
  | none => .ok none
  | some s =>
    if s = "" then .ok none
    else
      match parseUrl s with
      | none => .error ()
      | some original =>
        .ok (some (Url.href { scheme := issuerUrl.scheme, host := issuerUrl.host,
                              path := original.path, search := original.search,
                              hash := original.hash }))

/-- `a ?? b` for `string | undefined` values (no `null` in this chain). -/
def jsOr (a b : Option String) : Option String :=
  match a with
  | some v => some v
  | none => b

/-- The body of the `try` block of `rewriteOAuthMetadataIssuer` (auth.ts
lines 151-178): parse the override, then build the rewritten metadata
record; the first `remap` call that throws aborts the whole object
construction (the exception escapes to the outer catch). -/
def rewriteAttempt (p : String) (metadata : OAuthMetadataR) : Except Unit OAuthMetadataR :=
  match parseUrl p with
  | none => .error ()
  | some pu =>
    let issuerUrl := ensureTrailingSlash pu
    match remap issuerUrl metadata.authorization_endpoint with
    | .error e => .error e
    | .ok ae =>
      match remap issuerUrl metadata.token_endpoint with
      | .error e => .error e
      | .ok te =>
        match remap issuerUrl metadata.introspection_endpoint with
        | .error e => .error e
        | .ok ie =>
          match remap issuerUrl metadata.userinfo_endpoint with
          | .error e => .error e
          | .ok ue =>
            match remap issuerUrl metadata.revocation_endpoint with
            | .error e => .error e
            | .ok re =>
              match remap issuerUrl metadata.end_session_endpoint with
              | .error e => .error e
              | .ok ee =>
                match remap issuerUrl metadata.jwks_uri with
                | .error e => .error e
                | .ok je =>
                  .ok { issuer := issuerUrl.href
                        authorization_endpoint := jsOr ae metadata.authorization_endpoint
                        token_endpoint := jsOr te metadata.token_endpoint
                        introspection_endpoint := jsOr ie metadata.introspection_endpoint
                        userinfo_endpoint := jsOr ue metadata.userinfo_endpoint
                        revocation_endpoint := jsOr re metadata.revocation_endpoint
                        end_session_endpoint := jsOr ee metadata.end_session_endpoint
                        jwks_uri := jsOr je metadata.jwks_uri }

/-- Embedding of `rewriteOAuthMetadataIssuer` (auth.ts lines 146-183): no
override (or an empty one) returns the metadata unchanged; otherwise the
rewrite is attempted and any thrown error — from parsing the override or
from parsing any endpoint inside `remap` — is caught, falling back to the
entire discovered metadata unchanged. -/
def rewriteOAuthMetadataIssuer (metadata : OAuthMetadataR) (publicIssuer : Option String) :
    OAuthMetadataR :=
  match publicIssuer with
  | none => metadata
  | some p =>
    if p = "" then metadata
    else
      match rewriteAttempt p metadata with
      | .ok m => m
      | .error _ => metadata

/-- What the spec calls rewriting an endpoint field: absent and empty
values are kept as they are (via the `?? original` fallback after `remap`
returns `undefined`), and a parseable value gets the public issuer's
scheme and authority with its own path, query and fragment preserved. -/
def rewrittenField (issuerUrl : Url) (orig res : Option String) : Prop :=
  (orig = none ∧ res = none) ∨
  (orig = some "" ∧ res = some "") ∨
  (∃ s o, orig = some s ∧ s ≠ "" ∧ parseUrl s = some o ∧
    res = some (Url.href { scheme := issuerUrl.scheme, host := issuerUrl.host,
                           path := o.path, search := o.search, hash := o.hash }))

theorem remap_ok_rewrittenField (iu : Url) (v r : Option String)
    (h : remap iu v = .ok r) : rewrittenField iu v (jsOr r v) := by
  match v with
  | none =>
    simp only [remap] at h
    cases h
    exact Or.inl ⟨rfl, rfl⟩
  | some s =>
    by_cases hs : s = ""
    · subst hs
      simp only [remap, if_pos rfl] at h
      cases h
      exact Or.inr (Or.inl ⟨rfl, rfl⟩)
    · simp only [remap, if_neg hs] at h
      cases hpt : parseUrl s with
      | none => rw [hpt] at h; cases h
      | some o =>
        rw [hpt] at h
        cases h
        exact Or.inr (Or.inr ⟨s, o, rfl, hs, hpt, rfl⟩)

/-- If a field is present, non-empty and unparseable, no `.ok` result of
`remap` exists and `rewrittenField` cannot hold for it. -/
theorem rewrittenField_no_bad (iu : Url) (t : String) (res : Option String)
    (ht : t ≠ "") (hbad : parseUrl t = none) :
    ¬ rewrittenField iu (some t) res := by
  rintro (⟨h, _⟩ | ⟨h, _⟩ | ⟨s, o, hs, _, hp, _⟩)
  · cases h
  · cases h; exact ht rfl
  · cases hs; rw [hbad] at hp; cases hp

/-- `remap` succeeds on any field that is absent, empty, or parseable. -/
theorem remap_ok_of_good (iu : Url) (v : Option String)
    (h : ∀ t, v = some t → t ≠ "" → (parseUrl t).isSome) :
    ∃ r, remap iu v = .ok r := by
  match v with
  | none => exact ⟨none, rfl⟩
  | some s =>
    by_cases hs : s = ""
    · subst hs; exact ⟨none, by simp [remap]⟩
    · have hsome := h s rfl hs
      cases hpt : parseUrl s with
      | none => rw [hpt] at hsome; simp at hsome
      | some o =>
        exact ⟨some (Url.href { scheme := iu.scheme, host := iu.host, path := o.path,
                                search := o.search, hash := o.hash }),
               by simp [remap, if_neg hs, hpt]⟩

/-- Shape of a successful `rewriteAttempt`: the issuer field becomes the
slash-ensured public issuer href and every endpoint field satisfies
`rewrittenField`. -/
theorem rewriteAttempt_ok_fields (p : String) (pu : Url) (m m' : OAuthMetadataR)
    (hp : parseUrl p = some pu) (h : rewriteAttempt p m = .ok m') :
    m'.issuer = (ensureTrailingSlash pu).href ∧
    rewrittenField (ensureTrailingSlash pu) m.authorization_endpoint m'.authorization_endpoint ∧
    rewrittenField (ensureTrailingSlash pu) m.token_endpoint m'.token_endpoint ∧
    rewrittenField (ensureTrailingSlash pu) m.introspection_endpoint m'.introspection_endpoint ∧
    rewrittenField (ensureTrailingSlash pu) m.userinfo_endpoint m'.userinfo_endpoint ∧
    rewrittenField (ensureTrailingSlash pu) m.revocation_endpoint m'.revocation_endpoint ∧
    rewrittenField (ensureTrailingSlash pu) m.end_session_endpoint m'.end_session_endpoint ∧
    rewrittenField (ensureTrailingSlash pu) m.jwks_uri m'.jwks_uri := by
  simp only [rewriteAttempt, hp] at h
  cases hae : remap (ensureTrailingSlash pu) m.authorization_endpoint with
  | error e => rw [hae] at h; cases h
  | ok ae =>
  rw [hae] at h
  cases hte : remap (ensureTrailingSlash pu) m.token_endpoint with
  | error e => rw [hte] at h; cases h
  | ok te =>
  rw [hte] at h
  cases hie : remap (ensureTrailingSlash pu) m.introspection_endpoint with
  | error e => rw [hie] at h; cases h
  | ok ie =>
  rw [hie] at h
  cases hue : remap (ensureTrailingSlash pu) m.userinfo_endpoint with
  | error e => rw [hue] at h; cases h
  | ok ue =>
  rw [hue] at h
  cases hre : remap (ensureTrailingSlash pu) m.revocation_endpoint with
  | error e => rw [hre] at h; cases h
  | ok re =>
  rw [hre] at h
  cases hee : remap (ensureTrailingSlash pu) m.end_session_endpoint with
  | error e => rw [hee] at h; cases h
  | ok ee =>
  rw [hee] at h
  cases hje : remap (ensureTrailingSlash pu) m.jwks_uri with
  | error e => rw [hje] at h; cases h
  | ok je =>
  rw [hje] at h
  cases h
  exact ⟨rfl,
    remap_ok_rewrittenField _ _ _ hae, remap_ok_rewrittenField _ _ _ hte,
    remap_ok_rewrittenField _ _ _ hie, remap_ok_rewrittenField _ _ _ hue,
    remap_ok_rewrittenField _ _ _ hre, remap_ok_rewrittenField _ _ _ hee,
    remap_ok_rewrittenField _ _ _ hje⟩

/-- The metadata used by the C6 counterexample: one endpoint that does not
parse as a URL next to one that does. -/
def issuerRewriteCexMetadata : OAuthMetadataR :=
  { issuer := "https://internal.example"
    authorization_endpoint := some "not a url"
    token_endpoint := some "https://internal.example/token"
    introspection_endpoint := none
    userinfo_endpoint := none
    revocation_endpoint := none
    end_session_endpoint := none
    jwks_uri := none }

/-- C6 counterexample: with an override configured, one unparseable
endpoint (`authorization_endpoint`) makes the catch around the whole
object construction return the entire metadata unchanged, so the
perfectly parseable `token_endpoint` is NOT rewritten — contradicting the
claim that a parse failure falls back for that field only, leaving the
other fields rewritten. -/
theorem rewriteOAuthMetadataIssuer_counterexample :
    parseUrl "not a url" = none ∧
    (∃ u, parseUrl "https://internal.example/token" = some u) ∧
    rewriteOAuthMetadataIssuer issuerRewriteCexMetadata (some "https://public.example")
      = issuerRewriteCexMetadata ∧
    (rewriteOAuthMetadataIssuer issuerRewriteCexMetadata
        (some "https://public.example")).token_endpoint
      = some "https://internal.example/token" ∧
    (rewriteOAuthMetadataIssuer issuerRewriteCexMetadata
        (some "https://public.example")).token_endpoint
      ≠ some "https://public.example/token" :=
  ⟨rfl, ⟨_, rfl⟩, rfl, rfl, by decide⟩

/-- C6 (amended): with no (or an empty) override the metadata is returned
unchanged; with an override, if the override itself or ANY present
non-empty endpoint URL fails to parse, the error is caught and the entire
metadata is returned unchanged (not just that field); when everything
parses, every endpoint field gets the public issuer's scheme and authority
with path, query and fragment preserved exactly, and the issuer field
becomes the trailing-slash-ensured public issuer URL.  The function is
total: it never throws. -/
theorem rewriteOAuthMetadataIssuer_amended (m : OAuthMetadataR) (p : Option String) :
    (p = none → rewriteOAuthMetadataIssuer m p = m) ∧
    (p = some "" → rewriteOAuthMetadataIssuer m p = m) ∧
    (∀ s, p = some s → s ≠ "" → parseUrl s = none → rewriteOAuthMetadataIssuer m p = m) ∧
    (∀ s, p = some s → s ≠ "" →
      (∃ v ∈ metadataEndpointFields m, ∃ t, v = some t ∧ t ≠ "" ∧ parseUrl t = none) →
      rewriteOAuthMetadataIssuer m p = m) ∧
    (∀ s pu, p = some s → s ≠ "" → parseUrl s = some pu →
      (∀ v ∈ metadataEndpointFields m, ∀ t, v = some t → t ≠ "" → (parseUrl t).isSome) →
      (rewriteOAuthMetadataIssuer m p).issuer = (ensureTrailingSlash pu).href ∧
      rewrittenField (ensureTrailingSlash pu) m.authorization_endpoint
        (rewriteOAuthMetadataIssuer m p).authorization_endpoint ∧
      rewrittenField (ensureTrailingSlash pu) m.token_endpoint
        (rewriteOAuthMetadataIssuer m p).token_endpoint ∧
      rewrittenField (ensureTrailingSlash pu) m.introspection_endpoint
        (rewriteOAuthMetadataIssuer m p).introspection_endpoint ∧
      rewrittenField (ensureTrailingSlash pu) m.userinfo_endpoint
        (rewriteOAuthMetadataIssuer m p).userinfo_endpoint ∧
      rewrittenField (ensureTrailingSlash pu) m.revocation_endpoint
        (rewriteOAuthMetadataIssuer m p).revocation_endpoint ∧
      rewrittenField (ensureTrailingSlash pu) m.end_session_endpoint
        (rewriteOAuthMetadataIssuer m p).end_session_endpoint ∧
      rewrittenField (ensureTrailingSlash pu) m.jwks_uri
        (rewriteOAuthMetadataIssuer m p).jwks_uri) := by
  refine ⟨?_, ?_, ?_, ?_, ?_⟩
  · rintro rfl; rfl
  · rintro rfl; rfl
  · rintro s rfl hs hbad
    simp only [rewriteOAuthMetadataIssuer, if_neg hs, rewriteAttempt, hbad]
  · rintro s rfl hs ⟨v, hv, t, hvt, ht, hbad⟩
    simp only [rewriteOAuthMetadataIssuer, if_neg hs]
    cases ha : rewriteAttempt s m with
    | error e => rfl
    | ok m' =>
      exfalso
      cases hp : parseUrl s with
      | none => simp only [rewriteAttempt, hp] at ha; cases ha
      | some pu =>
        have hf := rewriteAttempt_ok_fields s pu m m' hp ha
        subst hvt
        simp only [metadataEndpointFields, List.mem_cons, List.not_mem_nil, or_false] at hv
        rcases hv with h | h | h | h | h | h | h <;>
          · rw [← h] at hf
            first
            | exact rewrittenField_no_bad _ t _ ht hbad hf.2.1
            | exact rewrittenField_no_bad _ t _ ht hbad hf.2.2.1
            | exact rewrittenField_no_bad _ t _ ht hbad hf.2.2.2.1
            | exact rewrittenField_no_bad _ t _ ht hbad hf.2.2.2.2.1
            | exact rewrittenField_no_bad _ t _ ht hbad hf.2.2.2.2.2.1
            | exact rewrittenField_no_bad _ t _ ht hbad hf.2.2.2.2.2.2.1
            | exact rewrittenField_no_bad _ t _ ht hbad hf.2.2.2.2.2.2.2
  · rintro s pu rfl hs hp hgood
    obtain ⟨ae, hae⟩ := remap_ok_of_good (ensureTrailingSlash pu) m.authorization_endpoint
      (hgood _ (by simp [metadataEndpointFields]))
    obtain ⟨te, hte⟩ := remap_ok_of_good (ensureTrailingSlash pu) m.token_endpoint
      (hgood _ (by simp [metadataEndpointFields]))
    obtain ⟨ie, hie⟩ := remap_ok_of_good (ensureTrailingSlash pu) m.introspection_endpoint
      (hgood _ (by simp [metadataEndpointFields]))
    obtain ⟨ue, hue⟩ := remap_ok_of_good (ensureTrailingSlash pu) m.userinfo_endpoint
      (hgood _ (by simp [metadataEndpointFields]))
    obtain ⟨re, hre⟩ := remap_ok_of_good (ensureTrailingSlash pu) m.revocation_endpoint
      (hgood _ (by simp [metadataEndpointFields]))
    obtain ⟨ee, hee⟩ := remap_ok_of_good (ensureTrailingSlash pu) m.end_session_endpoint
      (hgood _ (by simp [metadataEndpointFields]))
    obtain ⟨je, hje⟩ := remap_ok_of_good (ensureTrailingSlash pu) m.jwks_uri
      (hgood _ (by simp [metadataEndpointFields]))
    cases ha : rewriteAttempt s m with
    | error e =>
      exfalso
      simp only [rewriteAttempt, hp, hae, hte, hie, hue, hre, hee, hje] at ha
      cases ha
    | ok m' =>
      have heq : rewriteOAuthMetadataIssuer m (some s) = m' := by
        simp [rewriteOAuthMetadataIssuer, if_neg hs, ha]
      rw [heq]
      exact rewriteAttempt_ok_fields s pu m m' hp ha

/-- Metadata whose present endpoints all parse, for the C6 witness. -/
def issuerRewriteGoodMetadata : OAuthMetadataR :=
  { issuer := "https://internal.example"
    authorization_endpoint := some "https://internal.example/authorize?client=x#frag"
    token_endpoint := some "https://internal.example/token"
    introspection_endpoint := some ""
    userinfo_endpoint := none
    revocation_endpoint := none
    end_session_endpoint := none
    jwks_uri := some "https://internal.example/jwks" }

/-- Closed instance of the amended C6: an unparseable override leaves the
metadata unchanged; an unparseable endpoint leaves the whole metadata
unchanged; with everything parseable the issuer is replaced by the
slash-ensured public issuer and the token endpoint keeps its path under
the new authority. -/
theorem rewriteOAuthMetadataIssuer_amended_witness :
    rewriteOAuthMetadataIssuer issuerRewriteGoodMetadata (some "nota url") =
      issuerRewriteGoodMetadata ∧
    rewriteOAuthMetadataIssuer issuerRewriteCexMetadata (some "https://public.example") =
      issuerRewriteCexMetadata ∧
    (rewriteOAuthMetadataIssuer issuerRewriteGoodMetadata
        (some "https://public.example")).issuer = "https://public.example/" ∧
    rewrittenField
      { scheme := "https", host := "public.example", path := "/", search := "", hash := "" }
      (some "https://internal.example/authorize?client=x#frag")
      (rewriteOAuthMetadataIssuer issuerRewriteGoodMetadata
        (some "https://public.example")).authorization_endpoint := by
  have hgood : ∀ v ∈ metadataEndpointFields issuerRewriteGoodMetadata,
      ∀ t, v = some t → t ≠ "" → (parseUrl t).isSome := by
    intro v hv t hvt ht
    simp only [issuerRewriteGoodMetadata, metadataEndpointFields, List.mem_cons,
      List.not_mem_nil, or_false] at hv
    rcases hv with h | h | h | h | h | h | h <;> rw [h] at hvt
    · cases Option.some.inj hvt; decide
    · cases Option.some.inj hvt; decide
    · cases Option.some.inj hvt; exact absurd rfl ht
    · cases hvt
    · cases hvt
    · cases hvt
    · cases Option.some.inj hvt; decide
  have h5 := (rewriteOAuthMetadataIssuer_amended issuerRewriteGoodMetadata
      (some "https://public.example")).2.2.2.2 "https://public.example"
      { scheme := "https", host := "public.example", path := "/", search := "", hash := "" }
      rfl (by decide) rfl hgood
  refine ⟨?_, ?_, ?_, ?_⟩
  · exact (rewriteOAuthMetadataIssuer_amended issuerRewriteGoodMetadata
      (some "nota url")).2.2.1 "nota url" rfl (by decide) rfl
  · exact (rewriteOAuthMetadataIssuer_amended issuerRewriteCexMetadata
      (some "https://public.example")).2.2.2.1 "https://public.example" rfl (by decide)
      ⟨some "not a url",
       by simp [issuerRewriteCexMetadata, metadataEndpointFields],
       "not a url", rfl, by decide, rfl⟩
  · exact h5.1.trans (by decide)
  · have := h5.2.1
    simpa [issuerRewriteGoodMetadata, ensureTrailingSlash] using this

/-! ## Metadata discovery with retries (`discoverOAuthMetadata`, auth.ts
lines 99-128)

The network is an oracle `fetch : Nat → Nat → FetchOutcome` giving the
outcome of fetching candidate number `i` (0-based, in the order
`buildWellKnownCandidates` produces) during retry round `r` (1-based, as
in the source's `attempt` counter).  The observable effects — which
(round, candidate) pairs were fetched in which order, the `attempts`
failure log, and the sleeps between rounds — are returned alongside the
result. -/

/-- Outcome of one `fetch` of a candidate URL: a 2xx response with a
parseable JSON body, a 2xx response whose `response.json()` throws, a
non-2xx response (`!response.ok`), or a rejected fetch. -/
inductive FetchOutcome where
  | ok (body : Json)
  | okBadJson (err : String)
  | httpError (status : Nat) (statusText : String)
  | netError (err : String)

/-- The inner `for (const candidate of ...)` loop (auth.ts lines 103-119):
on the first 2xx-with-parseable-body candidate, return its body; every
failing candidate appends its entry to the `attempts` log — non-2xx as
`href (HTTP status)`, thrown errors (network or JSON parse) as
`href (error)` — and the loop records which candidates it fetched. -/
def runCandidates (fetch : Nat → Nat → FetchOutcome) (attemptNo : Nat) :
    List String → Nat → List (Nat × Nat) × List String × Option Json
  | [], _ => ([], [], none)
  | href :: rest, idx =>
    match fetch attemptNo idx with
    | .ok body => ([(attemptNo, idx)], [], some body)
    | .okBadJson err =>
      match runCandidates fetch attemptNo rest (idx + 1) with
      | (f, a, r) => ((attemptNo, idx) :: f, (href ++ " (" ++ err ++ ")") :: a, r)
    | .httpError status _statusText =>
      match runCandidates fetch attemptNo rest (idx + 1) with
      | (f, a, r) => ((attemptNo, idx) :: f, (href ++ " (HTTP " ++ toString status ++ ")") :: a, r)
    | .netError err =>
      match runCandidates fetch attemptNo rest (idx + 1) with
      | (f, a, r) => ((attemptNo, idx) :: f, (href ++ " (" ++ err ++ ")") :: a, r)

/-- The outer retry loop (auth.ts lines 102-125), recursing on the number
of remaining rounds (`count` = `retries - attempt + 1`): run every
candidate; return on success; otherwise sleep for the configured delay
exactly when more rounds remain (`attempt < retries`) and go round
again. -/
def discoverRounds (fetch : Nat → Nat → FetchOutcome) (hrefs : List String) (delayMs : Nat) :
    Nat → Nat → List (Nat × Nat) × List String × List Nat × Option Json
  | _, 0 => ([], [], [], none)
  | attemptNo, count + 1 =>
    match runCandidates fetch attemptNo hrefs 0 with
    | (f, a, some body) => (f, a, [], some body)
    | (f, a, none) =>
      match count with
      | 0 => (f, a, [], none)
      | c + 1 =>
        match discoverRounds fetch hrefs delayMs (attemptNo + 1) (c + 1) with
        | (f2, a2, s2, r2) => (f ++ f2, a ++ a2, delayMs :: s2, r2)

/-- The observable behaviour of one call to `discoverOAuthMetadata`. -/
structure DiscoveryResult where
  fetched : List (Nat × Nat)
  attempts : List String
  sleeps : List Nat
  result : Except String Json

/-- Embedding of `discoverOAuthMetadata` (auth.ts lines 99-128): run the
retry loop over the candidates of `buildWellKnownCandidates issuer`
starting at attempt 1; if no round succeeds, throw a single error whose
message lists every attempt joined by `; `. -/
def discoverOAuthMetadata (fetch : Nat → Nat → FetchOutcome) (issuer : Url)
    (retries delayMs : Nat) : DiscoveryResult :=
  let hrefs := (buildWellKnownCandidates issuer).map Url.href
  match discoverRounds fetch hrefs delayMs 1 retries with
  | (f, a, s, some body) => { fetched := f, attempts := a, sleeps := s, result := .ok body }
  | (f, a, s, none) =>
    { fetched := f, attempts := a, sleeps := s,
      result := .error ("Unable to load OAuth metadata from issuer " ++ issuer.href ++
        ". Tried: " ++ String.intercalate "; " a) }

/-- The log entry a failing fetch outcome produces for a candidate href
(the `.ok` case is never logged; it is excluded by hypothesis wherever
this is used). -/
def failReason (href : String) : FetchOutcome → String
  | .okBadJson err => href ++ " (" ++ err ++ ")"
  | .httpError status _ => href ++ " (HTTP " ++ toString status ++ ")"
  | .netError err => href ++ " (" ++ err ++ ")"
  | .ok _ => href

/-- Spec-side enumeration: the failure log of one full round over the
candidates, in order. -/
def roundFailLog (fetch : Nat → Nat → FetchOutcome) (attemptNo : Nat) :
    List String → Nat → List String
  | [], _ => []
  | href :: rest, idx => failReason href (fetch attemptNo idx) :: roundFailLog fetch attemptNo rest (idx + 1)

/-- Spec-side enumeration: `n` consecutive candidate indices of one round,
starting at `idx`. -/
def roundPairsFrom (attemptNo idx : Nat) : Nat → List (Nat × Nat)
  | 0 => []
  | n + 1 => (attemptNo, idx) :: roundPairsFrom attemptNo (idx + 1) n

/-- Spec-side enumeration: the failure logs of `c` consecutive full rounds
starting at round `a`. -/
def roundsFailLog (fetch : Nat → Nat → FetchOutcome) (hrefs : List String) :
    Nat → Nat → List String
  | _, 0 => []
  | a, c + 1 => roundFailLog fetch a hrefs 0 ++ roundsFailLog fetch hrefs (a + 1) c

/-- Spec-side enumeration: every candidate index of `c` consecutive full
rounds starting at round `a`. -/
def roundsPairs (len : Nat) : Nat → Nat → List (Nat × Nat)
  | _, 0 => []
  | a, c + 1 => roundPairsFrom a 0 len ++ roundsPairs len (a + 1) c

theorem runCandidates_all_fail (fetch : Nat → Nat → FetchOutcome) (a : Nat) :
    ∀ (hrefs : List String) (idx : Nat),
    (∀ k, k < hrefs.length → ∀ b, fetch a (idx + k) ≠ .ok b) →
    runCandidates fetch a hrefs idx =
      (roundPairsFrom a idx hrefs.length, roundFailLog fetch a hrefs idx, none) := by
  intro hrefs
  induction hrefs with
  | nil => intro idx h; rfl
  | cons href rest ih =>
    intro idx h
    have h0 : ∀ b, fetch a idx ≠ .ok b := by
      intro b
      simpa using h 0 (by simp) b
    have hrest : ∀ k, k < rest.length → ∀ b, fetch a (idx + 1 + k) ≠ .ok b := by
      intro k hk b
      have heq : idx + 1 + k = idx + (k + 1) := by omega
      rw [heq]
      exact h (k + 1) (by simp; omega) b
    cases hf : fetch a idx with
    | ok body => exact absurd hf (by intro hc; exact h0 body hc)
    | okBadJson err =>
      simp only [runCandidates, hf, ih (idx + 1) hrest, List.length_cons]
      simp [roundPairsFrom, roundFailLog, failReason, hf]
    | httpError status statusText =>
      simp only [runCandidates, hf, ih (idx + 1) hrest, List.length_cons]
      simp [roundPairsFrom, roundFailLog, failReason, hf]
    | netError err =>
      simp only [runCandidates, hf, ih (idx + 1) hrest, List.length_cons]
      simp [roundPairsFrom, roundFailLog, failReason, hf]

theorem runCandidates_success (fetch : Nat → Nat → FetchOutcome) (a : Nat) :
    ∀ (hrefs : List String) (idx i₀ : Nat) (body : Json),
    i₀ < hrefs.length →
    fetch a (idx + i₀) = .ok body →
    (∀ k, k < i₀ → ∀ b, fetch a (idx + k) ≠ .ok b) →
    runCandidates fetch a hrefs idx =
      (roundPairsFrom a idx i₀ ++ [(a, idx + i₀)],
       roundFailLog fetch a (hrefs.take i₀) idx, some body) := by
  intro hrefs
  induction hrefs with
  | nil => intro idx i₀ body hlen; simp at hlen
  | cons href rest ih =>
    intro idx i₀ body hlen hok hpre
    cases i₀ with
    | zero =>
      simp only [Nat.add_zero] at hok
      simp [runCandidates, hok, roundPairsFrom, roundFailLog]
    | succ k =>
      have h0 : ∀ b, fetch a idx ≠ .ok b := by
        intro b
        simpa using hpre 0 (by omega) b
      have hok2 : fetch a (idx + 1 + k) = .ok body := by
        have heq : idx + 1 + k = idx + (k + 1) := by omega
        rw [heq]; exact hok
      have hpre2 : ∀ j, j < k → ∀ b, fetch a (idx + 1 + j) ≠ .ok b := by
        intro j hj b
        have heq : idx + 1 + j = idx + (j + 1) := by omega
        rw [heq]
        exact hpre (j + 1) (by omega) b
      have hlen2 : k < rest.length := by simpa using hlen
      cases hf : fetch a idx with
      | ok body2 => exact absurd hf (by intro hc; exact h0 body2 hc)
      | okBadJson err =>
        simp only [runCandidates, hf, ih (idx + 1) k body hlen2 hok2 hpre2]
        simp only [roundPairsFrom, roundFailLog, failReason, hf, List.take_succ_cons]
        have heq : idx + 1 + k = idx + (k + 1) := by omega
        simp [heq]
      | httpError status statusText =>
        simp only [runCandidates, hf, ih (idx + 1) k body hlen2 hok2 hpre2]
        simp only [roundPairsFrom, roundFailLog, failReason, hf, List.take_succ_cons]
        have heq : idx + 1 + k = idx + (k + 1) := by omega
        simp [heq]
      | netError err =>
        simp only [runCandidates, hf, ih (idx + 1) k body hlen2 hok2 hpre2]
        simp only [roundPairsFrom, roundFailLog, failReason, hf, List.take_succ_cons]
        have heq : idx + 1 + k = idx + (k + 1) := by omega
        simp [heq]

theorem discoverRounds_all_fail (fetch : Nat → Nat → FetchOutcome) (hrefs : List String)
    (delay : Nat) :
    ∀ (c a : Nat),
    (∀ r i, a ≤ r → r < a + c → i < hrefs.length → ∀ b, fetch r i ≠ .ok b) →
    discoverRounds fetch hrefs delay a c =
      (roundsPairs hrefs.length a c, roundsFailLog fetch hrefs a c,
       List.replicate (c - 1) delay, none) := by
  intro c
  induction c with
  | zero => intro a h; rfl
  | succ c ih =>
    intro a h
    have hthis : ∀ k, k < hrefs.length → ∀ b, fetch a (0 + k) ≠ .ok b := by
      intro k hk b
      have heq : 0 + k = k := by omega
      rw [heq]
      exact h a k (le_refl a) (by omega) hk b
    have hrc := runCandidates_all_fail fetch a hrefs 0 hthis
    cases c with
    | zero =>
      simp only [discoverRounds, hrc]
      simp [roundsPairs, roundsFailLog]
    | succ c2 =>
      have hrec := ih (a + 1) (fun r i hr1 hr2 hi b => h r i (by omega) (by omega) hi b)
      simp only [discoverRounds, hrc, hrec]
      simp only [roundsPairs, roundsFailLog]
      have hrepl : c2 + 1 + 1 - 1 = (c2 + 1 - 1) + 1 := by omega
      rw [hrepl, List.replicate_succ]

theorem discoverRounds_success (fetch : Nat → Nat → FetchOutcome) (hrefs : List String)
    (delay : Nat) :
    ∀ (c a r₀ i₀ : Nat) (body : Json),
    a ≤ r₀ → r₀ < a + c → i₀ < hrefs.length →
    fetch r₀ i₀ = .ok body →
    (∀ r i, a ≤ r → i < hrefs.length → (r < r₀ ∨ (r = r₀ ∧ i < i₀)) → ∀ b, fetch r i ≠ .ok b) →
    ∃ att, discoverRounds fetch hrefs delay a c =
      (roundsPairs hrefs.length a (r₀ - a) ++ roundPairsFrom r₀ 0 i₀ ++ [(r₀, i₀)],
       att, List.replicate (r₀ - a) delay, some body) := by
  intro c
  induction c with
  | zero => intro a r₀ i₀ body ha hc; omega
  | succ c ih =>
    intro a r₀ i₀ body ha hc hlen hok hpre
    rcases Nat.eq_or_lt_of_le ha with rfl | halt
    · have hok0 : fetch a (0 + i₀) = .ok body := by
        have heq : 0 + i₀ = i₀ := by omega
        rw [heq]; exact hok
      have hpre0 : ∀ k, k < i₀ → ∀ b, fetch a (0 + k) ≠ .ok b := by
        intro k hk b
        have heq : 0 + k = k := by omega
        rw [heq]
        exact hpre a k (le_refl a) (by omega) (Or.inr ⟨rfl, hk⟩) b
      have hrc := runCandidates_success fetch a hrefs 0 i₀ body hlen hok0 hpre0
      refine ⟨roundFailLog fetch a (hrefs.take i₀) 0, ?_⟩
      simp only [discoverRounds, hrc]
      have hz : a - a = 0 := by omega
      simp [hz, roundsPairs]
    · have hfail : ∀ k, k < hrefs.length → ∀ b, fetch a (0 + k) ≠ .ok b := by
        intro k hk b
        have heq : 0 + k = k := by omega
        rw [heq]
        exact hpre a k (le_refl a) hk (Or.inl halt) b
      have hrc := runCandidates_all_fail fetch a hrefs 0 hfail
      cases c with
      | zero => omega
      | succ c2 =>
        obtain ⟨att2, hrec⟩ := ih (a + 1) r₀ i₀ body (by omega) (by omega) hlen hok
          (fun r i hr hi hlt b => hpre r i (by omega) hi hlt b)
        refine ⟨roundFailLog fetch a hrefs 0 ++ att2, ?_⟩
        simp only [discoverRounds, hrc, hrec]
        have hsub : r₀ - a = (r₀ - (a + 1)) + 1 := by omega
        rw [hsub, List.replicate_succ]
        simp only [roundsPairs]
        simp [List.append_assoc]

theorem mem_roundPairsFrom (p : Nat × Nat) (a : Nat) :
    ∀ (n idx : Nat), p ∈ roundPairsFrom a idx n → p.1 = a ∧ idx ≤ p.2 ∧ p.2 < idx + n := by
  intro n
  induction n with
  | zero => intro idx h; simp [roundPairsFrom] at h
  | succ n ih =>
    intro idx h
    simp only [roundPairsFrom, List.mem_cons] at h
    rcases h with rfl | h
    · exact ⟨rfl, le_refl _, by omega⟩
    · obtain ⟨h1, h2, h3⟩ := ih (idx + 1) h
      exact ⟨h1, by omega, by omega⟩

theorem mem_roundsPairs (p : Nat × Nat) (len : Nat) :
    ∀ (c a : Nat), p ∈ roundsPairs len a c → a ≤ p.1 ∧ p.1 < a + c ∧ p.2 < len := by
  intro c
  induction c with
  | zero => intro a h; simp [roundsPairs] at h
  | succ c ih =>
    intro a h
    simp only [roundsPairs, List.mem_append] at h
    rcases h with h | h
    · obtain ⟨h1, _, h3⟩ := mem_roundPairsFrom p a len 0 h
      exact ⟨by omega, by omega, by omega⟩
    · obtain ⟨h1, h2, h3⟩ := ih (a + 1) h
      exact ⟨by omega, by omega, h3⟩

/-- C2: over the candidate list of `buildWellKnownCandidates`, if every
candidate fails (non-2xx or thrown error) in every round `1..N`, then the
discoverer fetches every candidate in order in each of exactly `N` rounds,
sleeps the configured delay exactly `N - 1` times (between consecutive
rounds, never after the last), and throws a single error whose message
enumerates every attempted URL with its failure reason (joined by `; `);
if instead some candidate succeeds with a parseable 2xx response, the
parsed body of the first success (in round-major, candidate-order) is
returned, everything fetched lies at or before that first success — no
later candidate is attempted — and only the full rounds before the
successful one are preceded by a sleep. -/
theorem discoverOAuthMetadata_spec (fetch : Nat → Nat → FetchOutcome) (issuer : Url)
    (retries delayMs : Nat) (hrefs : List String)
    (hhrefs : hrefs = (buildWellKnownCandidates issuer).map Url.href) :
    ((∀ r i, 1 ≤ r → r ≤ retries → i < hrefs.length → ∀ b, fetch r i ≠ .ok b) →
      (discoverOAuthMetadata fetch issuer retries delayMs).result =
        .error ("Unable to load OAuth metadata from issuer " ++ issuer.href ++
          ". Tried: " ++ String.intercalate "; " (roundsFailLog fetch hrefs 1 retries)) ∧
      (discoverOAuthMetadata fetch issuer retries delayMs).attempts =
        roundsFailLog fetch hrefs 1 retries ∧
      (discoverOAuthMetadata fetch issuer retries delayMs).fetched =
        roundsPairs hrefs.length 1 retries ∧
      (discoverOAuthMetadata fetch issuer retries delayMs).sleeps =
        List.replicate (retries - 1) delayMs) ∧
    (∀ r₀ i₀ body, 1 ≤ r₀ → r₀ ≤ retries → i₀ < hrefs.length →
      fetch r₀ i₀ = .ok body →
      (∀ r i, 1 ≤ r → i < hrefs.length → (r < r₀ ∨ (r = r₀ ∧ i < i₀)) →
        ∀ b, fetch r i ≠ .ok b) →
      (discoverOAuthMetadata fetch issuer retries delayMs).result = .ok body ∧
      (discoverOAuthMetadata fetch issuer retries delayMs).fetched =
        roundsPairs hrefs.length 1 (r₀ - 1) ++ roundPairsFrom r₀ 0 i₀ ++ [(r₀, i₀)] ∧
      (∀ p ∈ (discoverOAuthMetadata fetch issuer retries delayMs).fetched,
        p.1 < r₀ ∨ (p.1 = r₀ ∧ p.2 ≤ i₀)) ∧
      (discoverOAuthMetadata fetch issuer retries delayMs).sleeps =
        List.replicate (r₀ - 1) delayMs) := by
  subst hhrefs
  constructor
  · intro hfail
    have hd := discoverRounds_all_fail fetch
      ((buildWellKnownCandidates issuer).map Url.href) delayMs retries 1
      (fun r i h1 h2 hi b => hfail r i h1 (by omega) hi b)
    simp only [discoverOAuthMetadata, hd]
    refine ⟨?_, ?_, ?_, ?_⟩ <;> trivial
  · intro r₀ i₀ body h1 h2 hlen hok hpre
    obtain ⟨att, hd⟩ := discoverRounds_success fetch
      ((buildWellKnownCandidates issuer).map Url.href) delayMs retries 1 r₀ i₀ body
      h1 (by omega) hlen hok (fun r i hr hi hlt b => hpre r i hr hi hlt b)
    simp only [discoverOAuthMetadata, hd]
    refine ⟨by trivial, by trivial, ?_, by trivial⟩
    intro p hp
    simp only [List.mem_append, List.mem_singleton] at hp
    rcases hp with (hp | hp) | hp
    · have hm := mem_roundsPairs p _ (r₀ - 1) 1 hp
      exact Or.inl (by omega)
    · have hm := mem_roundPairsFrom p r₀ i₀ 0 hp
      exact Or.inr ⟨hm.1, by omega⟩
    · exact Or.inr ⟨by rw [hp], by rw [hp]⟩

/-- The C2 witness issuer:
`https://auth.example.com/realms/r` (no trailing slash). -/
def wIssuer : Url :=
  { scheme := "https", host := "auth.example.com", path := "/realms/r",
    search := "", hash := "" }

/-- An oracle on which every fetch returns HTTP 404. -/
def allFailFetch : Nat → Nat → FetchOutcome := fun _ _ => .httpError 404 "Not Found"

/-- An oracle that fails with a network error until candidate 1 of round 2
responds 2xx with a parseable body. -/
def winFetch : Nat → Nat → FetchOutcome := fun r i =>
  if r = 2 ∧ i = 1 then .ok (.str "metadata") else .netError "ECONNREFUSED"

/-- Closed instance of C2 with 4 candidates: two all-failing rounds fetch
all eight (round, candidate) pairs in order with one sleep in between and
produce the aggregated error; a success at round 2, candidate 1 (of 3
configured retries) stops immediately after six fetches with one sleep. -/
theorem discoverOAuthMetadata_spec_witness :
    (discoverOAuthMetadata allFailFetch wIssuer 2 7).sleeps = [7] ∧
    (discoverOAuthMetadata allFailFetch wIssuer 2 7).fetched =
      [(1, 0), (1, 1), (1, 2), (1, 3), (2, 0), (2, 1), (2, 2), (2, 3)] ∧
    (discoverOAuthMetadata allFailFetch wIssuer 2 7).result =
      .error ("Unable to load OAuth metadata from issuer " ++ wIssuer.href ++
        ". Tried: " ++ String.intercalate "; "
          (roundsFailLog allFailFetch ((buildWellKnownCandidates wIssuer).map Url.href) 1 2)) ∧
    (discoverOAuthMetadata winFetch wIssuer 3 7).result = .ok (.str "metadata") ∧
    (discoverOAuthMetadata winFetch wIssuer 3 7).fetched =
      [(1, 0), (1, 1), (1, 2), (1, 3), (2, 0), (2, 1)] ∧
    (discoverOAuthMetadata winFetch wIssuer 3 7).sleeps = [7] := by
  have hAF : ∀ r i, 1 ≤ r → r ≤ 2 →
      i < ((buildWellKnownCandidates wIssuer).map Url.href).length →
      ∀ b, allFailFetch r i ≠ .ok b := by
    intro r i _ _ _ b
    simp [allFailFetch]
  have h1 := (discoverOAuthMetadata_spec allFailFetch wIssuer 2 7 _ rfl).1 hAF
  have hpre : ∀ r i, 1 ≤ r →
      i < ((buildWellKnownCandidates wIssuer).map Url.href).length →
      (r < 2 ∨ (r = 2 ∧ i < 1)) → ∀ b, winFetch r i ≠ .ok b := by
    intro r i hr hi hlt b
    have hc : ¬(r = 2 ∧ i = 1) := by omega
    simp [winFetch, hc]
  have h2 := (discoverOAuthMetadata_spec winFetch wIssuer 3 7 _ rfl).2 2 1 (.str "metadata")
    (by omega) (by omega) (by decide) rfl hpre
  exact ⟨h1.2.2.2.trans (by decide), h1.2.2.1.trans (by decide), h1.1,
         h2.1, h2.2.1.trans (by decide), h2.2.2.2.trans (by decide)⟩

/-! ## OAuth context construction (`buildOAuthAuthContext`, auth.ts lines
412-469)

Discovery is the I/O boundary: the function is modelled from the point
where `discoverOAuthMetadata` has returned (`discoveredMetadata` is a
parameter), which is exactly the part the claim is about — the interplay
of the pre-rewrite discovered metadata, the endpoint overrides and the
issuer rewriting. -/

/-- Error thrown when no internal issuer URL is configured (auth.ts line
415). -/
def oauthIssuerRequiredError : String :=
  "MCP_OAUTH_INTERNAL_ISSUER_URL (or MCP_OAUTH_ISSUER_URL) is required when auth mode is oauth."

/-- `o !== undefined && o !== ''`, the presence test used for credentials
and endpoints (auth.ts lines 425-431). -/
def strPresent (o : Option String) : Bool :=
  match o with
  | none => false
  | some s => s != ""

/-- The configuration constants `buildOAuthAuthContext` reads. -/
structure OAuthConfig where
  internalIssuerUrl : Option String
  publicIssuerUrl : Option String
  clientId : Option String
  clientSecret : Option String
  introspectionUrl : Option String
  jwksUrl : Option String
  expectedIssuer : Option String
  validationMethod : OAuthValidationMethod
deriving DecidableEq, Repr

/-- The observable outcome of `buildOAuthAuthContext`: the published
metadata, the resolved validation method, and the endpoint the constructed
verifier will actually call — the JWKS URL for the jwt strategy, the
introspection endpoint for the introspection strategy. -/
structure OAuthContext where
  mode : String
  validationMethod : ResolvedMethod
  verifierEndpoint : String
  expectedIssuer : Option String
  oauthMetadata : OAuthMetadataR
deriving DecidableEq, Repr

/-- Embedding of `buildOAuthAuthContext` (auth.ts lines 412-469) after
discovery: endpoints resolve as `override ?? discovered` on the
PRE-rewrite metadata (lines 423-424); the issuer rewrite produces only the
published `oauthMetadata` (line 420); `resolveValidationMethod` picks the
strategy, and the verifier is built from the resolved endpoints (`new
URL(jwksUri)` throwing becomes an error). -/
def buildOAuthAuthContext (cfg : OAuthConfig) (discoveredMetadata : OAuthMetadataR) :
    Except String OAuthContext :=
  match cfg.internalIssuerUrl with
  | none => .error oauthIssuerRequiredError
  | some internalIssuerString =>
    if internalIssuerString = "" then .error oauthIssuerRequiredError
    else
      let oauthMetadata := rewriteOAuthMetadataIssuer discoveredMetadata cfg.publicIssuerUrl
      let introspectionEndpoint := jsOr cfg.introspectionUrl discoveredMetadata.introspection_endpoint
      let jwksUri := jsOr cfg.jwksUrl discoveredMetadata.jwks_uri
      let hasClientCredentials := strPresent cfg.clientId && strPresent cfg.clientSecret
      match resolveValidationMethod cfg.validationMethod hasClientCredentials
          (strPresent introspectionEndpoint) (strPresent jwksUri) with
      | .error e => .error e
      | .ok .jwt =>
        match parseUrl (jwksUri.getD "") with
        | none => .error "Invalid URL"
        | some jwksUrl =>
          .ok { mode := "oauth"
                validationMethod := .jwt
                verifierEndpoint := jwksUrl.href
                expectedIssuer := some ((jsOr cfg.expectedIssuer
                  (some discoveredMetadata.issuer)).getD internalIssuerString)
                oauthMetadata := oauthMetadata }
      | .ok .introspection =>
        .ok { mode := "oauth"
              validationMethod := .introspection
              verifierEndpoint := introspectionEndpoint.getD ""
              expectedIssuer := none
              oauthMetadata := oauthMetadata }

/-- `resolveValidationMethod` only ever picks introspection when an
introspection endpoint is available. -/
theorem resolveValidationMethod_ok_introspection
    (mth : OAuthValidationMethod) (c i j : Bool)
    (h : resolveValidationMethod mth c i j = .ok .introspection) : i = true := by
  cases mth <;> cases c <;> cases i <;> cases j <;> first | rfl | exact absurd h (by decide)

/-- `resolveValidationMethod` only ever picks jwt when a JWKS URI is
available. -/
theorem resolveValidationMethod_ok_jwt
    (mth : OAuthValidationMethod) (c i j : Bool)
    (h : resolveValidationMethod mth c i j = .ok .jwt) : j = true := by
  cases mth <;> cases c <;> cases i <;> cases j <;> first | rfl | exact absurd h (by decide)

theorem strPresent_some (o : Option String) (h : strPresent o = true) :
    some (o.getD "") = o := by
  match o with
  | none => simp [strPresent] at h
  | some s => rfl

/-- C9: the endpoints used to resolve the validation method and to build
the verifier come from the pre-rewrite discovered metadata, with the
`MCP_OAUTH_INTROSPECTION_URL` / `MCP_OAUTH_JWKS_URL` overrides taking
precedence; the issuer rewrite affects only the published `oauthMetadata`
field — changing the public issuer override changes nothing else about
the constructed context (not even success or failure), and in particular
never changes which introspection or JWKS URL the verifier calls. -/
theorem buildOAuthAuthContext_frame (cfg : OAuthConfig) (m : OAuthMetadataR)
    (p : Option String) :
    (buildOAuthAuthContext { cfg with publicIssuerUrl := p } m =
      (buildOAuthAuthContext { cfg with publicIssuerUrl := none } m).map
        (fun ctx => { ctx with oauthMetadata := rewriteOAuthMetadataIssuer m p })) ∧
    (∀ ctx, buildOAuthAuthContext cfg m = .ok ctx →
      ctx.oauthMetadata = rewriteOAuthMetadataIssuer m cfg.publicIssuerUrl ∧
      (ctx.validationMethod = .introspection →
        some ctx.verifierEndpoint = jsOr cfg.introspectionUrl m.introspection_endpoint) ∧
      (ctx.validationMethod = .jwt →
        ∃ u, parseUrl ((jsOr cfg.jwksUrl m.jwks_uri).getD "") = some u ∧
          ctx.verifierEndpoint = u.href)) := by
  obtain ⟨iI, pI, cI, cS, iU, jU, eI, vM⟩ := cfg
  constructor
  · cases iI with
    | none => rfl
    | some s =>
      by_cases hs : s = ""
      · simp [buildOAuthAuthContext, hs, Except.map]
      · simp only [buildOAuthAuthContext, if_neg hs]
        cases hv : resolveValidationMethod vM (strPresent cI && strPresent cS)
            (strPresent (jsOr iU m.introspection_endpoint))
            (strPresent (jsOr jU m.jwks_uri)) with
        | error e => simp [Except.map]
        | ok rm =>
          cases rm with
          | introspection => simp [Except.map]
          | jwt =>
            cases hu : parseUrl ((jsOr jU m.jwks_uri).getD "") with
            | none => simp [hu, Except.map]
            | some u => simp [hu, Except.map]
  · intro ctx hctx
    cases iI with
    | none => cases hctx
    | some s =>
      by_cases hs : s = ""
      · simp [buildOAuthAuthContext, hs] at hctx
      · simp only [buildOAuthAuthContext, if_neg hs] at hctx
        cases hv : resolveValidationMethod vM (strPresent cI && strPresent cS)
            (strPresent (jsOr iU m.introspection_endpoint))
            (strPresent (jsOr jU m.jwks_uri)) with
        | error e => rw [hv] at hctx; cases hctx
        | ok rm =>
          rw [hv] at hctx
          cases rm with
          | introspection =>
            cases hctx
            refine ⟨rfl, ?_, ?_⟩
            · intro _
              exact strPresent_some _ (resolveValidationMethod_ok_introspection _ _ _ _ hv)
            · intro hbad; cases hbad
          | jwt =>
            cases hu : parseUrl ((jsOr jU m.jwks_uri).getD "") with
            | none => rw [hu] at hctx; cases hctx
            | some u =>
              rw [hu] at hctx
              cases hctx
              refine ⟨rfl, ?_, ?_⟩
              · intro hbad; cases hbad
              · intro _
                exact ⟨u, rfl, rfl⟩

/-- The discovered metadata for the C9 witness. -/
def frameWitnessMetadata : OAuthMetadataR :=
  { issuer := "https://internal.example"
    authorization_endpoint := some "https://internal.example/auth"
    token_endpoint := some "https://internal.example/token"
    introspection_endpoint := some "https://internal.example/introspect"
    userinfo_endpoint := none
    revocation_endpoint := none
    end_session_endpoint := none
    jwks_uri := some "https://internal.example/jwks" }

/-- The configuration for the C9 witness: auto mode, credentials present,
no endpoint overrides, public issuer differing from the internal one. -/
def frameWitnessConfig : OAuthConfig :=
  { internalIssuerUrl := some "https://internal.example"
    publicIssuerUrl := some "https://public.example"
    clientId := some "cid"
    clientSecret := some "secret"
    introspectionUrl := none
    jwksUrl := none
    expectedIssuer := none
    validationMethod := .auto }

/-- The context the witness configuration produces. -/
def frameWitnessContext : OAuthContext :=
  { mode := "oauth"
    validationMethod := .introspection
    verifierEndpoint := "https://internal.example/introspect"
    expectedIssuer := none
    oauthMetadata := rewriteOAuthMetadataIssuer frameWitnessMetadata (some "https://public.example") }

/-- Closed instance of C9: with auto mode resolving to introspection, the
verifier calls the internal (pre-rewrite) introspection endpoint while the
published metadata advertises the rewritten public one. -/
theorem buildOAuthAuthContext_frame_witness :
    buildOAuthAuthContext frameWitnessConfig frameWitnessMetadata = .ok frameWitnessContext ∧
    some frameWitnessContext.verifierEndpoint =
      jsOr frameWitnessConfig.introspectionUrl frameWitnessMetadata.introspection_endpoint ∧
    frameWitnessContext.verifierEndpoint = "https://internal.example/introspect" ∧
    frameWitnessContext.oauthMetadata.introspection_endpoint =
      some "https://public.example/introspect" := by
  have hok : buildOAuthAuthContext frameWitnessConfig frameWitnessMetadata =
      .ok frameWitnessContext := rfl
  have h2 := (buildOAuthAuthContext_frame frameWitnessConfig frameWitnessMetadata
    (some "https://public.example")).2 frameWitnessContext hok
  exact ⟨hok, h2.2.1 rfl, rfl, by decide⟩

end ActualMcp
